import Mathlib

/-!
Shallow embedding of the match-3 mini-game engine from
`src/frontend/src/game/match3.js` (function `mountMatch3`), together with
proofs of the specified properties.

Modelling conventions:
* JS numbers that are always small non-negative integers become `Nat`
  (board coordinates offered by the input layer, which may be off-board,
  become `Int`).
* The DOM / visual layer (element handles, transforms, float messages) is
  outside the model; only the game state (grid, score, purple charge,
  pending bombs, id counter) is embedded.
* `Math.random()` draws are modelled by an explicit stream
  `rng : Nat → Fin 5` (the source always draws `Math.floor(random * 5)`)
  together with a running draw counter.
* The unbounded `do … while` of the init rejection sampler and the
  unbounded cascade recursion are given explicit fuel; exhausting the fuel
  yields `none`, so every theorem about a produced state is conditional on
  the source loop having terminated, which it does with probability 1.
-/

namespace Match3

set_option maxRecDepth 100000

/-- Tile kinds: the five ordinary colors `c1 … c5` plus the special bomb. -/
inductive Kind where
  | c1 | c2 | c3 | c4 | c5 | bomb
deriving DecidableEq, Repr

/-- `const COLORS = ["c1","c2","c3","c4","c5"]`. -/
def COLORS : List Kind := [Kind.c1, Kind.c2, Kind.c3, Kind.c4, Kind.c5]

/-- `const BOMB_TYPE = "bomb"`. -/
def BOMB_TYPE : Kind := Kind.bomb

/-- `const PURPLE_TYPE = "c4"`. -/
def PURPLE_TYPE : Kind := Kind.c4

/-- `const SIZE = 8`. -/
def SIZE : Nat := 8

/-- A tile: unique id, stored board coordinates, kind.  The DOM element
handle owned by a tile is not modelled. -/
structure Tile where
  id : Nat
  r : Nat
  c : Nat
  type : Kind
deriving DecidableEq, Repr

/-- The board `grid`: an array of rows of tile slots (`null` = `none`).
All grids the engine ever holds are 8×8 (`Dims`). -/
abbrev Grid := List (List (Option Tile))

/-- `grid[r][c]` with JS out-of-bounds reads giving `undefined` (`none`). -/
def getCell (g : Grid) (r c : Nat) : Option Tile :=
  ((g.get? r).bind (fun row => row.get? c)).join

/-- `grid[r][c] = v`; out-of-bounds writes never happen in the source and
are no-ops here. -/
def setCell (g : Grid) (r c : Nat) (v : Option Tile) : Grid :=
  match g.get? r with
  | some row => g.set r (row.set c v)
  | none => g

/-! ## Match detection (`findMatches`) -/

/-- `matched.add(t)` on a JS `Set`: deduplicating insertion that keeps
insertion order (the set is read back with `Array.from`). -/
def insertTile (s : List Tile) (t : Tile) : List Tile :=
  if t ∈ s then s else s ++ [t]

/-- The flush at the end of a run in `findMatches`: if the finished run has
length ≥ 3, add the tiles `grid[…][c-k]`, `k < matchLen`, to the matched
set. -/
def flushRun (line : Nat → Option Tile) (c matchLen : Nat)
    (acc : List Tile) : List Tile :=
  if 3 ≤ matchLen then
    (List.range matchLen).foldl
      (fun s k =>
        match line (c - k) with
        | some t => insertTile s t
        | none => s) acc
  else acc

/-- One line scan of `findMatches`: walk the cells `c, c+1, …` keeping a
run length, extending the run while `curr` and `next` are present, equal
in kind and not bombs, flushing the run otherwise.  `rem` is the number of
cells left to visit (the source visits `c = 0 … 7`, with `next = null` at
the right edge, which `line 8 = none` reproduces). -/
def linePassFrom (line : Nat → Option Tile) :
    Nat → Nat → Nat → List Tile → List Tile
  | 0, _, _, acc => acc
  | rem + 1, c, matchLen, acc =>
    match line c, line (c + 1) with
    | some curr, some next =>
      if curr.type = next.type ∧ curr.type ≠ BOMB_TYPE then
        linePassFrom line rem (c + 1) (matchLen + 1) acc
      else
        linePassFrom line rem (c + 1) 1 (flushRun line c matchLen acc)
    | _, _ =>
        linePassFrom line rem (c + 1) 1 (flushRun line c matchLen acc)

/-- Scan one full line (row or column), accumulating into `acc`. -/
def scanLineInto (line : Nat → Option Tile) (acc : List Tile) : List Tile :=
  linePassFrom line SIZE 0 1 acc

/-- `findMatches()`: scan all 8 rows, then all 8 columns, collecting every
cell of every maximal run of ≥ 3 equal non-bomb kinds into one set. -/
def findMatches (g : Grid) : List Tile :=
  let afterRows :=
    (List.range SIZE).foldl
      (fun acc r => scanLineInto (fun c => getCell g r c) acc) []
  (List.range SIZE).foldl
    (fun acc c => scanLineInto (fun r => getCell g r c) acc) afterRows

/-! ## Board initialisation (`initGame`) -/

/-- `causesMatch(r, c, type, currentRow, currentGrid)`: would placing
`type` at `(r, c)` complete a run of 3 with the two left neighbours in the
row being built, or the two upper neighbours in the columns already
built? -/
def causesMatch (r c : Nat) (type : Kind) (currentRow : List Tile)
    (currentGrid : List (List Tile)) : Bool :=
  (decide (2 ≤ c) &&
    match currentRow.get? (c - 1), currentRow.get? (c - 2) with
    | some t1, some t2 => t1.type == type && t2.type == type
    | _, _ => false) ||
  (decide (2 ≤ r) &&
    match (currentGrid.get? (r - 1)).bind (fun row => row.get? c),
          (currentGrid.get? (r - 2)).bind (fun row => row.get? c) with
    | some t1, some t2 => t1.type == type && t2.type == type
    | _, _ => false)

/-- `COLORS[Math.floor(Math.random() * COLORS.length)]`: one draw from the
random stream. -/
def drawType (rng : Nat → Fin 5) (ctr : Nat) : Kind :=
  COLORS.getD (rng ctr).val Kind.c1

/-- Fuel bound put on the source's unbounded `do … while` resampling loop;
exhausting it maps to `none`. -/
def RESAMPLE_FUEL : Nat := 64

/-- The `do { type = COLORS[…] } while (causesMatch(…))` rejection
sampler: draw from the stream until the drawn kind is acceptable,
returning the kind and the advanced draw counter. -/
def sampleUntil (rng : Nat → Fin 5) (bad : Kind → Bool) :
    Nat → Nat → Option (Kind × Nat)
  | 0, _ => none
  | fuel + 1, ctr =>
    let t := drawType rng ctr
    if bad t then sampleUntil rng bad fuel (ctr + 1) else some (t, ctr + 1)

/-- The inner column loop of `initGame` for row `r`: `n` cells remain to
be placed; the current column index is `row.length`.  Threads the id
counter and the random draw counter. -/
def buildRowFrom (rng : Nat → Fin 5) (r : Nat) (grid : List (List Tile)) :
    Nat → List Tile → Nat → Nat → Option (List Tile × Nat × Nat)
  | 0, row, nid, ctr => some (row, nid, ctr)
  | n + 1, row, nid, ctr =>
    let c := row.length
    match sampleUntil rng (fun k => causesMatch r c k row grid)
        RESAMPLE_FUEL ctr with
    | none => none
    | some (t, ctr') =>
        buildRowFrom rng r grid n (row ++ [⟨nid, r, c, t⟩]) (nid + 1) ctr'

/-- Build one full row of 8 cells. -/
def buildRow (rng : Nat → Fin 5) (r : Nat) (grid : List (List Tile))
    (nid ctr : Nat) : Option (List Tile × Nat × Nat) :=
  buildRowFrom rng r grid SIZE [] nid ctr

/-- The outer row loop of `initGame`: `n` rows remain; the current row
index is `grid.length`. -/
def initFrom (rng : Nat → Fin 5) :
    Nat → List (List Tile) → Nat → Nat →
    Option (List (List Tile) × Nat × Nat)
  | 0, g, nid, ctr => some (g, nid, ctr)
  | n + 1, g, nid, ctr =>
    match buildRow rng g.length g nid ctr with
    | none => none
    | some (row, nid', ctr') => initFrom rng n (g ++ [row]) nid' ctr'

/-- `initGame()`'s board fill: starting from an empty grid, id counter 1
and draw counter 0, place 8 rows of 8 rejection-sampled tiles. -/
def initGame (rng : Nat → Fin 5) :
    Option (List (List Tile) × Nat × Nat) :=
  initFrom rng SIZE [] 1 0

/-- View the row-list board built by `initGame` as a `Grid`. -/
def boardToGrid (b : List (List Tile)) : Grid :=
  b.map (fun row => row.map some)

/-! ## Engine state and the cascade pipeline -/

/-- The mutable game-logic bindings of `mountMatch3` (`grid`, `score`,
`purpleCount`, `pendingBombs`, `nextId`) plus the position of the engine
in the shared random stream. -/
structure EngineState where
  grid : Grid
  score : Nat
  purpleCount : Nat
  pendingBombs : Nat
  nextId : Nat
  rngCtr : Nat
deriving DecidableEq

/-- The purple-charge update of `processMatches`: if any charge tiles were
matched, add them, and on crossing the threshold 7 queue
`⌊counter / 7⌋` bombs and reduce the counter mod 7.  Returns the new
`(purpleCount, pendingBombs)`. -/
def chargeStep (purple pending pDelta : Nat) : Nat × Nat :=
  if 0 < pDelta then
    if 7 ≤ purple + pDelta then
      ((purple + pDelta) % 7, pending + (purple + pDelta) / 7)
    else (purple + pDelta, pending)
  else (purple, pending)

/-- Number of matched tiles of the designated charge color. -/
def countPurple (matchSet : List Tile) : Nat :=
  (matchSet.filter (fun t => t.type == PURPLE_TYPE)).length

/-- The grid effect of `removeTiles`: clear the cell of every removed
tile. -/
def removeAll (g : Grid) (ts : List Tile) : Grid :=
  ts.foldl (fun g t => setCell g t.r t.c none) g

/-- The synchronous head of `processMatches(matches, combo)`: add
`matches.length * 10 * combo` to the score, run the charge update, and
clear the matched cells (`removeTiles`). -/
def stepMatches (st : EngineState) (matchSet : List Tile) (combo : Nat) :
    EngineState :=
  { st with
    score := st.score + matchSet.length * 10 * combo
    purpleCount :=
      (chargeStep st.purpleCount st.pendingBombs (countPurple matchSet)).1
    pendingBombs :=
      (chargeStep st.purpleCount st.pendingBombs (countPurple matchSet)).2
    grid := removeAll st.grid matchSet }

/-- The inner `for (k = r-1; k >= 0; k--)` search of the gravity loop:
find the lowest-lying tile strictly above row `n` in column `c`. -/
def findAbove (g : Grid) (c : Nat) : Nat → Option (Nat × Tile)
  | 0 => none
  | k + 1 =>
    match getCell g k c with
    | some t => some (k, t)
    | none => findAbove g c k

/-- One step of the gravity loop at `(r, c)`: if the cell is empty, pull
down the nearest tile above it, updating that tile's stored row. -/
def gravityStep (g : Grid) (c r : Nat) : Grid :=
  match getCell g r c with
  | some _ => g
  | none =>
    match findAbove g c r with
    | none => g
    | some (k, t) => setCell (setCell g r c (some { t with r := r })) k c none

/-- The full gravity/compaction phase of `fillBoard`: per column, walk the
rows bottom-up, pulling tiles down into holes. -/
def gravity (g : Grid) : Grid :=
  (List.range SIZE).foldl
    (fun g c =>
      ((List.range SIZE).reverse).foldl (fun g r => gravityStep g c r) g) g

/-- Accumulator of the refill loop: the grid together with the three
counters the loop mutates. -/
structure FillAcc where
  grid : Grid
  pendingBombs : Nat
  nextId : Nat
  rngCtr : Nat

/-- One cell of the refill loop: an empty cell gets a new tile — a bomb if
any bombs are pending (consuming one), otherwise the randomly drawn
ordinary kind.  The random draw happens before the pending-bomb check, as
in the source, so a draw is consumed either way. -/
def refillCell (rng : Nat → Fin 5) (a : FillAcc) (c r : Nat) : FillAcc :=
  match getCell a.grid r c with
  | some _ => a
  | none =>
    let drawn := drawType rng a.rngCtr
    let tb : Kind × Nat :=
      if 0 < a.pendingBombs then (BOMB_TYPE, a.pendingBombs - 1)
      else (drawn, a.pendingBombs)
    { grid := setCell a.grid r c (some ⟨a.nextId, r, c, tb.1⟩)
      pendingBombs := tb.2
      nextId := a.nextId + 1
      rngCtr := a.rngCtr + 1 }

/-- The whole refill double loop on the accumulator. -/
def refillAcc (rng : Nat → Fin 5) (a : FillAcc) : FillAcc :=
  (List.range SIZE).foldl
    (fun a c =>
      (List.range SIZE).foldl (fun a r => refillCell rng a c r) a) a

/-- The refill phase of `fillBoard`: for each column, top-down, spawn a
tile in every empty cell, writing the mutated counters back to the engine
state. -/
def refillSt (rng : Nat → Fin 5) (st : EngineState) : EngineState :=
  { st with
    grid := (refillAcc rng ⟨st.grid, st.pendingBombs, st.nextId, st.rngCtr⟩).grid
    pendingBombs :=
      (refillAcc rng ⟨st.grid, st.pendingBombs, st.nextId, st.rngCtr⟩).pendingBombs
    nextId :=
      (refillAcc rng ⟨st.grid, st.pendingBombs, st.nextId, st.rngCtr⟩).nextId
    rngCtr :=
      (refillAcc rng ⟨st.grid, st.pendingBombs, st.nextId, st.rngCtr⟩).rngCtr }

/-- `fillBoard(comboMultiplier)`: gravity, refill, re-scan; if the re-scan
finds matches, recurse into `processMatches` at `comboMultiplier + 1`
(inlined here, to which it is definitionally equal).  `fuel` bounds the
cascade depth; exhausting it yields `none`. -/
def fillBoard (rng : Nat → Fin 5) :
    Nat → EngineState → Nat → Option EngineState
  | 0, st, _combo =>
    let st1 := refillSt rng { st with grid := gravity st.grid }
    let nm := findMatches st1.grid
    if nm = [] then some st1 else none
  | fuel + 1, st, combo =>
    let st1 := refillSt rng { st with grid := gravity st.grid }
    let nm := findMatches st1.grid
    if nm = [] then some st1
    else fillBoard rng fuel (stepMatches st1 nm (combo + 1)) (combo + 1)

/-- `processMatches(matches, combo)`: score/charge/removal, then
`fillBoard(combo)`. -/
def processMatches (rng : Nat → Fin 5) (fuel : Nat) (st : EngineState)
    (matchSet : List Tile) (combo : Nat) : Option EngineState :=
  fillBoard rng fuel (stepMatches st matchSet combo) combo

/-- Row-major list of all board coordinates, as visited by the
`triggerBomb` scan. -/
def allCells : List (Nat × Nat) :=
  (List.range SIZE).flatMap (fun r => (List.range SIZE).map (fun c => (r, c)))

/-- The board scan of `triggerBomb`: every board tile whose kind is the
target color, in row-major order. -/
def bombScan (g : Grid) (targetColor : Kind) : List Tile :=
  allCells.filterMap (fun rc =>
    match getCell g rc.1 rc.2 with
    | some t => if t.type = targetColor then some t else none
    | none => none)

/-- The `hits` list of `triggerBomb`: the scan, then the two swapped tiles
unless already present (`if (!hits.includes(t)) hits.push(t)`, the same
push-if-absent as the match set's `add`). -/
def bombHits (g : Grid) (t1 t2 : Tile) (targetColor : Kind) : List Tile :=
  insertTile (insertTile (bombScan g targetColor) t1) t2

/-- The state right after `triggerBomb`'s `removeTiles(hits)`: the grid
with every hit cleared; score and counters untouched. -/
def detonateState (st : EngineState) (t1 t2 : Tile) (targetColor : Kind) :
    EngineState :=
  { st with grid := removeAll st.grid (bombHits st.grid t1 t2 targetColor) }

/-- `triggerBomb(t1, t2, targetColor)`: collect and clear the hits, then
run one refill pass seeded at combo multiplier 2. -/
def triggerBomb (rng : Nat → Fin 5) (fuel : Nat) (st : EngineState)
    (t1 t2 : Tile) (targetColor : Kind) : Option EngineState :=
  fillBoard rng fuel (detonateState st t1 t2 targetColor) 2

/-- `swapTilesData(t1, t2)`: exchange the two tiles' grid slots and their
stored coordinates.  Returns the new grid and the two updated tiles (the
JS mutates the tile objects in place; here the updated values are
returned). -/
def swapTilesData (g : Grid) (t1 t2 : Tile) : Grid × Tile × Tile :=
  let t1' : Tile := { t1 with r := t2.r, c := t2.c }
  let t2' : Tile := { t2 with r := t1.r, c := t1.c }
  (setCell (setCell g t1.r t1.c (some t2')) t2.r t2.c (some t1'), t1', t2')

/-- `attemptSwap(t1, r2, c2)` restricted to its game-logic effect: reject
off-board targets, empty targets and double-bomb swaps unchanged; hand a
single bomb to `triggerBomb`; otherwise swap, detect matches, and either
cascade (combo 1) or revert by swapping a second time. -/
def attemptSwap (rng : Nat → Fin 5) (fuel : Nat) (st : EngineState)
    (t1 : Tile) (r2 c2 : Int) : Option EngineState :=
  if r2 < 0 ∨ 8 ≤ r2 ∨ c2 < 0 ∨ 8 ≤ c2 then some st
  else
    match getCell st.grid r2.toNat c2.toNat with
    | none => some st
    | some t2 =>
      if t1.type = BOMB_TYPE ∨ t2.type = BOMB_TYPE then
        if t1.type = BOMB_TYPE ∧ t2.type = BOMB_TYPE then some st
        else
          triggerBomb rng fuel st t1 t2
            (if t1.type = BOMB_TYPE then t2.type else t1.type)
      else
        let s := swapTilesData st.grid t1 t2
        let found := findMatches s.1
        if found = [] then
          some { st with grid := (swapTilesData s.1 s.2.1 s.2.2).1 }
        else
          processMatches rng fuel { st with grid := s.1 } found 1

/-- The engine state `initGame()` leaves behind: zeroed counters and a
freshly filled board (`none` if the sampler's fuel ran out). -/
def resetState (rng : Nat → Fin 5) : Option EngineState :=
  (initGame rng).map (fun x =>
    { grid := boardToGrid x.1
      score := 0
      purpleCount := 0
      pendingBombs := 0
      nextId := x.2.1
      rngCtr := x.2.2 })

/-- The second half of `attemptSwap`'s rejected-swap path as it resumes
after its `await sleep(250)`: the revert `swapTilesData(t1, t2)` applied
to whatever grid the engine's closed-over `grid` binding holds at resume
time.  If a reset ran during the sleep, that is the freshly rebuilt
grid. -/
def revertContinuation (t1 t2 : Tile) (st : EngineState) : EngineState :=
  { st with grid := (swapTilesData st.grid t1 t2).1 }

/-! ## Mount contract -/

/-- Which anchor references are handed to `mountMatch3`. -/
structure MountArgs where
  boardEl : Bool
  scoreEl : Bool
  resetBtn : Bool
  bombBarEl : Bool
  bombTextEl : Bool
  wrapEl : Bool

/-- The guard at the top of `mountMatch3`: a full mount happens unless one
of `boardEl`, `scoreEl`, `resetBtn`, `wrapEl`, `bombBarEl` is missing, in
which case an inert teardown is returned. -/
def mountsFully (a : MountArgs) : Bool :=
  !(!a.boardEl || !a.scoreEl || !a.resetBtn || !a.wrapEl || !a.bombBarEl)

/-! ## Invariants -/

/-- The grid is an 8×8 array of rows, as `initGame` builds it. -/
def Dims (g : Grid) : Prop :=
  g.length = 8 ∧ ∀ row ∈ g, row.length = 8

instance (g : Grid) : Decidable (Dims g) :=
  inferInstanceAs (Decidable (_ ∧ ∀ row ∈ g, row.length = 8))

/-- A cell's content is coherent when any tile it references stores the
cell's own coordinates. -/
def CellOk (r c : Nat) : Option Tile → Prop
  | some t => t.r = r ∧ t.c = c
  | none => True

instance (r c : Nat) (o : Option Tile) : Decidable (CellOk r c o) := by
  cases o with
  | none => exact isTrue trivial
  | some t => exact instDecidableAnd

/-- Every tile referenced by a cell stores that cell's coordinates. -/
def Coherent (g : Grid) : Prop :=
  ∀ r c : Fin 8, CellOk r.val c.val (getCell g r.val c.val)

/-- Every board cell holds a tile. -/
def Full (g : Grid) : Prop :=
  ∀ r c : Fin 8, getCell g r.val c.val ≠ none

instance (g : Grid) : Decidable (Coherent g) :=
  inferInstanceAs (Decidable (∀ r c : Fin 8, CellOk r.val c.val (getCell g r.val c.val)))

instance (g : Grid) : Decidable (Full g) :=
  inferInstanceAs (Decidable (∀ r c : Fin 8, getCell g r.val c.val ≠ none))

/-- Unpacked form of `Coherent`, usable at `Nat` coordinates. -/
theorem Coherent.at {g : Grid} (h : Coherent g) {r c : Nat} {t : Tile}
    (ht : getCell g r c = some t) (hr : r < 8) (hc : c < 8) :
    t.r = r ∧ t.c = c := by
  have := h ⟨r, hr⟩ ⟨c, hc⟩
  simp only [CellOk] at this
  rw [ht] at this
  exact this

/-! ## Concrete test data

A deterministic random stream and a few concrete boards used by the
witnesses below. -/

/-- A concrete random stream cycling through the five colors. -/
def cycleRng : Nat → Fin 5 := fun n => ⟨n % 5, Nat.mod_lt _ (by omega)⟩

/-- Build a full coherent 8×8 grid from a kind pattern, ids row-major
starting at 1. -/
def mkGrid (f : Nat → Nat → Kind) : Grid :=
  (List.range 8).map (fun r =>
    (List.range 8).map (fun c => some ⟨r * 8 + c + 1, r, c, f r c⟩))

/-- A board with no matches anywhere: kind index `(3r + c) mod 5`. -/
def safeGrid : Grid := mkGrid (fun r c => COLORS.getD ((r * 3 + c) % 5) Kind.c1)

/-- A board every cell of which has the same kind (64 matched tiles). -/
def monoGrid : Grid := mkGrid (fun _ _ => Kind.c1)

/-- An engine state sitting on `safeGrid`. -/
def safeState : EngineState :=
  { grid := safeGrid, score := 0, purpleCount := 0, pendingBombs := 0
    nextId := 65, rngCtr := 0 }

/-- An engine state sitting on `monoGrid`. -/
def monoState : EngineState :=
  { grid := monoGrid, score := 0, purpleCount := 0, pendingBombs := 0
    nextId := 65, rngCtr := 0 }

/-- The tile at `(0,0)` of `safeGrid`. -/
def safeT00 : Tile := ⟨1, 0, 0, COLORS.getD 0 Kind.c1⟩

/-- `chargeStep` iterated over a whole play session's sequence of matched
charge-tile counts, from the reset values `(purpleCount, pendingBombs) =
(0, 0)`. -/
def chargeFold (ds : List Nat) : Nat × Nat :=
  ds.foldl (fun pq d => chargeStep pq.1 pq.2 d) (0, 0)

/-! ## Theorems -/

/-- Helper: one charge update moves the pair `(total % 7, total / 7)` to
`((total + d) % 7, (total + d) / 7)`. -/
theorem chargeStep_arith (T d : Nat) :
    chargeStep (T % 7) (T / 7) d = ((T + d) % 7, (T + d) / 7) := by
  unfold chargeStep
  split
  · split
    · refine Prod.ext ?_ ?_ <;> dsimp only <;> omega
    · refine Prod.ext ?_ ?_ <;> dsimp only <;> omega
  · refine Prod.ext ?_ ?_ <;> dsimp only <;> omega

/-- Helper: folding `chargeStep` from a state reached at total `T`. -/
theorem chargeFold_from (ds : List Nat) :
    ∀ T : Nat,
      ds.foldl (fun pq d => chargeStep pq.1 pq.2 d) (T % 7, T / 7)
        = ((T + ds.sum) % 7, (T + ds.sum) / 7) := by
  induction ds with
  | nil => intro T; simp
  | cons d ds ih =>
    intro T
    simp only [List.foldl_cons, List.sum_cons]
    rw [chargeStep_arith]
    rw [ih (T + d)]
    congr 1 <;> omega

/-- C3.  Charge law: over any sequence of matched charge-tile counts, the
running purple counter equals `total mod 7` (hence always in `[0, 6]`) and
the cumulative number of bombs ever queued equals `⌊total / 7⌋`; and the
charge components of a cascade step are exactly `chargeStep` applied to
the number of charge-colored tiles in the match set. -/
theorem c3_charge_law (ds : List Nat) :
    (chargeFold ds).1 = ds.sum % 7 ∧
    (chargeFold ds).2 = ds.sum / 7 ∧
    (chargeFold ds).1 < 7 ∧
    (∀ (st : EngineState) (ms : List Tile) (combo : Nat),
      (stepMatches st ms combo).purpleCount
          = (chargeStep st.purpleCount st.pendingBombs (countPurple ms)).1 ∧
      (stepMatches st ms combo).pendingBombs
          = (chargeStep st.purpleCount st.pendingBombs (countPurple ms)).2) := by
  have h : chargeFold ds = (ds.sum % 7, ds.sum / 7) := by
    have := chargeFold_from ds 0
    simpa [chargeFold] using this
  refine ⟨by rw [h], by rw [h], by rw [h]; omega, ?_⟩
  intro st ms combo
  exact ⟨rfl, rfl⟩

/-- C7 counterexample.  The claim predicts a full mount when the four
anchors `boardEl`, `scoreEl`, `resetBtn`, `bombBarEl` are provided and the
charge-text and wrapper are absent; the source's guard also requires
`wrapEl`, so no full mount happens. -/
theorem c7_counterexample :
    mountsFully
      { boardEl := true, scoreEl := true, resetBtn := true
        bombBarEl := true, bombTextEl := false, wrapEl := false } = false := by
  decide

/-- C7 (amended).  A full mount happens exactly when `boardEl`, `scoreEl`,
`resetBtn`, `wrapEl` and `bombBarEl` are all provided; only the
charge-text reference is optional.  Otherwise the inert teardown is
returned. -/
theorem c7_mount_guard (b s r bb bt w : Bool) :
    mountsFully
      { boardEl := b, scoreEl := s, resetBtn := r
        bombBarEl := bb, bombTextEl := bt, wrapEl := w }
      = (b && s && r && w && bb) := by
  cases b <;> cases s <;> cases r <;> cases bb <;> cases w <;> rfl

/-- C10.  A bomb detonation is score- and charge-neutral: `triggerBomb` is
the removal of the hit tiles (which touches neither score, purple counter
nor pending bombs) followed by the ordinary cascade pipeline, and the
gravity+refill phase of that pipeline never changes score or purple
counter either — they change only in the `stepMatches` part of the
follow-up cascade. -/
theorem c10_bomb_scores_nothing (rng : Nat → Fin 5) (fuel : Nat)
    (st : EngineState) (t1 t2 : Tile) (targetColor : Kind) :
    triggerBomb rng fuel st t1 t2 targetColor
        = fillBoard rng fuel (detonateState st t1 t2 targetColor) 2 ∧
    (detonateState st t1 t2 targetColor).score = st.score ∧
    (detonateState st t1 t2 targetColor).purpleCount = st.purpleCount ∧
    (detonateState st t1 t2 targetColor).pendingBombs = st.pendingBombs ∧
    (∀ st' : EngineState,
      (refillSt rng { st' with grid := gravity st'.grid }).score = st'.score ∧
      (refillSt rng { st' with grid := gravity st'.grid }).purpleCount
          = st'.purpleCount) := by
  refine ⟨rfl, rfl, rfl, rfl, fun st' => ⟨?_, ?_⟩⟩ <;> dsimp only [refillSt]

/-- C9.  Invalid move targets leave the state untouched: an off-board
target coordinate, a missing target tile, and a bomb-against-bomb swap all
make `attemptSwap` return the state unchanged. -/
theorem c9_invalid_targets (rng : Nat → Fin 5) (fuel : Nat)
    (st : EngineState) (t1 : Tile) (r2 c2 : Int) :
    ((r2 < 0 ∨ 8 ≤ r2 ∨ c2 < 0 ∨ 8 ≤ c2) →
      attemptSwap rng fuel st t1 r2 c2 = some st) ∧
    (getCell st.grid r2.toNat c2.toNat = none →
      attemptSwap rng fuel st t1 r2 c2 = some st) ∧
    (∀ t2 : Tile, getCell st.grid r2.toNat c2.toNat = some t2 →
      t1.type = BOMB_TYPE → t2.type = BOMB_TYPE →
      attemptSwap rng fuel st t1 r2 c2 = some st) := by
  refine ⟨?_, ?_, ?_⟩
  · intro h
    unfold attemptSwap
    rw [if_pos h]
  · intro h
    unfold attemptSwap
    split
    · rfl
    · rw [h]
  · intro t2 ht h1 h2
    unfold attemptSwap
    split
    · rfl
    · rw [ht]
      simp [h1, h2]

/-- Helper: the score component of one cascade step. -/
theorem stepMatches_score (st : EngineState) (ms : List Tile) (combo : Nat) :
    (stepMatches st ms combo).score = st.score + ms.length * 10 * combo := by
  dsimp only [stepMatches]

/-- Helper: the unfolding of `fillBoard` when the post-refill re-scan is
non-empty — the recursion happens at combo multiplier `cb + 1`. -/
theorem fillBoard_succ (rng : Nat → Fin 5) (f : Nat) (s : EngineState) (cb : Nat)
    (h : findMatches (refillSt rng { s with grid := gravity s.grid }).grid ≠ []) :
    fillBoard rng (f + 1) s cb
      = fillBoard rng f
          (stepMatches (refillSt rng { s with grid := gravity s.grid })
            (findMatches (refillSt rng { s with grid := gravity s.grid }).grid)
            (cb + 1)) (cb + 1) := by
  show (let st1 := refillSt rng { s with grid := gravity s.grid };
        let nm := findMatches st1.grid;
        if nm = [] then some st1
        else fillBoard rng f (stepMatches st1 nm (cb + 1)) (cb + 1)) = _
  rw [if_neg h]

/-- C2.  Scoring law: a cascade step resolving a match set of size `n` at
combo multiplier `m` adds exactly `n · 10 · m` to the score, and whenever
the post-refill re-scan finds a non-empty match set, the recursion
continues at combo multiplier exactly `m + 1`. -/
theorem c2_scoring_law (rng : Nat → Fin 5) (fuel : Nat) (st : EngineState)
    (ms : List Tile) (combo : Nat)
    (h : findMatches (refillSt rng
        { stepMatches st ms combo with
          grid := gravity (stepMatches st ms combo).grid }).grid ≠ []) :
    (stepMatches st ms combo).score = st.score + ms.length * 10 * combo ∧
    processMatches rng (fuel + 1) st ms combo
      = processMatches rng fuel
          (refillSt rng
            { stepMatches st ms combo with
              grid := gravity (stepMatches st ms combo).grid })
          (findMatches (refillSt rng
            { stepMatches st ms combo with
              grid := gravity (stepMatches st ms combo).grid }).grid)
          (combo + 1) := by
  refine ⟨stepMatches_score st ms combo, ?_⟩
  have e1 : processMatches rng (fuel + 1) st ms combo
      = fillBoard rng (fuel + 1) (stepMatches st ms combo) combo := rfl
  rw [e1, fillBoard_succ rng fuel (stepMatches st ms combo) combo h]
  rfl

/-- C2 witness: a board entirely of one color re-matches after the refill
of an empty cascade step, so the recursion fires at combo 2. -/
theorem c2_witness :
    findMatches (refillSt cycleRng
        { stepMatches monoState [] 1 with
          grid := gravity (stepMatches monoState [] 1).grid }).grid ≠ [] ∧
    processMatches cycleRng 1 monoState [] 1
      = processMatches cycleRng 0
          (refillSt cycleRng
            { stepMatches monoState [] 1 with
              grid := gravity (stepMatches monoState [] 1).grid })
          (findMatches (refillSt cycleRng
            { stepMatches monoState [] 1 with
              grid := gravity (stepMatches monoState [] 1).grid }).grid)
          2 := by
  have h : findMatches (refillSt cycleRng
      { stepMatches monoState [] 1 with
        grid := gravity (stepMatches monoState [] 1).grid }).grid ≠ [] := by
    decide
  exact ⟨h, (c2_scoring_law cycleRng 0 monoState [] 1 h).2⟩

/-- C9 witness: the three rejection branches at concrete inputs. -/
theorem c9_witness :
    attemptSwap cycleRng 1 safeState safeT00 (-1) 0 = some safeState ∧
    attemptSwap cycleRng 1 safeState safeT00 8 0 = some safeState := by
  constructor
  · exact (c9_invalid_targets cycleRng 1 safeState safeT00 (-1) 0).1
      (by decide)
  · exact (c9_invalid_targets cycleRng 1 safeState safeT00 8 0).1
      (by decide)

/-! ## Cell-level laws of the grid -/

/-- Reading any cell other than the one written leaves the grid
unchanged. -/
theorem getCell_setCell_ne (g : Grid) (r c : Nat) (v : Option Tile)
    (r' c' : Nat) (h : ¬(r' = r ∧ c' = c)) :
    getCell (setCell g r c v) r' c' = getCell g r' c' := by
  unfold setCell getCell
  cases hg : g.get? r with
  | none => rfl
  | some row =>
    by_cases hr : r' = r
    · subst hr
      have hc : c ≠ c' := fun hc => h ⟨rfl, hc.symm⟩
      have hrl : r' < g.length := by
        by_contra hx
        rw [List.get?_eq_none.mpr (by omega)] at hg
        exact Option.noConfusion hg
      rw [List.get?_set_eq_of_lt _ hrl, hg]
      simp only [Option.some_bind]
      rw [List.get?_set_ne _ _ hc]
    · rw [List.get?_set_ne _ _ (fun he => hr he.symm)]

/-- A successful read is in bounds (on an 8×8 grid). -/
theorem getCell_lt {g : Grid} (hd : Dims g) {r c : Nat} {t : Tile}
    (h : getCell g r c = some t) : r < 8 ∧ c < 8 := by
  unfold getCell at h
  rcases hd with ⟨hlen, hrows⟩
  cases hg : g.get? r with
  | none => rw [hg] at h; simp at h
  | some row =>
    rw [hg] at h
    simp only [Option.some_bind] at h
    cases hc : row.get? c with
    | none => rw [hc] at h; simp at h
    | some o =>
      have hr : r < g.length := by
        by_contra hx
        rw [List.get?_eq_none.mpr (by omega)] at hg
        exact Option.noConfusion hg
      have hcl : c < row.length := by
        by_contra hx
        rw [List.get?_eq_none.mpr (by omega)] at hc
        exact Option.noConfusion hc
      have := hrows row (List.get?_mem hg)
      omega

/-- Reading back the cell just written. -/
theorem getCell_setCell_self {g : Grid} (hd : Dims g) {r c : Nat}
    (hr : r < 8) (hc : c < 8) (v : Option Tile) :
    getCell (setCell g r c v) r c = v := by
  rcases hd with ⟨hlen, hrows⟩
  have hrl : r < g.length := by omega
  obtain ⟨row, hg⟩ : ∃ row, g.get? r = some row := by
    cases hg : g.get? r with
    | none => rw [List.get?_eq_none] at hg; omega
    | some row => exact ⟨row, rfl⟩
  have hcl : c < row.length := by
    have := hrows row (List.get?_mem hg)
    omega
  unfold setCell getCell
  rw [hg]
  rw [List.get?_set_eq_of_lt _ hrl]
  simp only [Option.some_bind]
  rw [List.get?_set_eq_of_lt _ hcl]
  rfl

/-- `setCell` preserves the 8×8 shape. -/
theorem dims_setCell {g : Grid} (hd : Dims g) (r c : Nat) (v : Option Tile) :
    Dims (setCell g r c v) := by
  rcases hd with ⟨hlen, hrows⟩
  unfold setCell
  cases hg : g.get? r with
  | none => exact ⟨hlen, hrows⟩
  | some row =>
    refine ⟨by simp [hlen], ?_⟩
    intro row' hrow'
    rcases List.mem_or_eq_of_mem_set hrow' with h | h
    · exact hrows row' h
    · subst h
      rw [List.length_set]
      exact hrows row (List.get?_mem hg)

/-- Two 8×8 grids agreeing on every cell are equal. -/
theorem grid_ext {g1 g2 : Grid} (hd1 : Dims g1) (hd2 : Dims g2)
    (h : ∀ r c, getCell g1 r c = getCell g2 r c) : g1 = g2 := by
  rcases hd1 with ⟨hl1, hr1⟩
  rcases hd2 with ⟨hl2, hr2⟩
  apply List.ext_get?_iff.mpr
  intro r
  by_cases hr : r < 8
  · obtain ⟨row1, e1⟩ : ∃ row, g1.get? r = some row := by
      cases e : g1.get? r with
      | none => rw [List.get?_eq_none] at e; omega
      | some row => exact ⟨row, rfl⟩
    obtain ⟨row2, e2⟩ : ∃ row, g2.get? r = some row := by
      cases e : g2.get? r with
      | none => rw [List.get?_eq_none] at e; omega
      | some row => exact ⟨row, rfl⟩
    rw [e1, e2]
    congr 1
    apply List.ext_get?_iff.mpr
    intro c
    have hlen1 := hr1 row1 (List.get?_mem e1)
    have hlen2 := hr2 row2 (List.get?_mem e2)
    by_cases hc : c < 8
    · have := h r c
      unfold getCell at this
      rw [e1, e2] at this
      simp only [Option.some_bind] at this
      cases f1 : row1.get? c with
      | none => rw [List.get?_eq_none] at f1; omega
      | some o1 =>
        cases f2 : row2.get? c with
        | none => rw [List.get?_eq_none] at f2; omega
        | some o2 =>
          rw [f1, f2] at this
          rw [show (some o1).join = o1 from rfl,
              show (some o2).join = o2 from rfl] at this
          rw [this]
    · rw [List.get?_eq_none.mpr (by omega), List.get?_eq_none.mpr (by omega)]
  · rw [List.get?_eq_none.mpr (by omega), List.get?_eq_none.mpr (by omega)]
/-- Helper for C5: applying `swapTilesData` to the two (updated) tiles a
second time restores the original grid, provided both tiles really sat at
their stored coordinates. -/
theorem swap_twice {g : Grid} {t1 t2 : Tile} (hd : Dims g)
    (h1 : getCell g t1.r t1.c = some t1) (h2 : getCell g t2.r t2.c = some t2) :
    (swapTilesData (swapTilesData g t1 t2).1
      (swapTilesData g t1 t2).2.1 (swapTilesData g t1 t2).2.2).1 = g := by
  obtain ⟨hr1, hc1⟩ := getCell_lt hd h1
  obtain ⟨hr2, hc2⟩ := getCell_lt hd h2
  dsimp only [swapTilesData]
  have hdA : Dims (setCell (setCell g t1.r t1.c
      (some { t2 with r := t1.r, c := t1.c })) t2.r t2.c
      (some { t1 with r := t2.r, c := t2.c })) :=
    dims_setCell (dims_setCell hd _ _ _) _ _ _
  have hdB : Dims (setCell (setCell (setCell (setCell g t1.r t1.c
      (some { t2 with r := t1.r, c := t1.c })) t2.r t2.c
      (some { t1 with r := t2.r, c := t2.c })) t2.r t2.c (some t2))
      t1.r t1.c (some t1)) :=
    dims_setCell (dims_setCell hdA _ _ _) _ _ _
  apply grid_ext hdB hd
  intro r c
  by_cases e1 : r = t1.r ∧ c = t1.c
  · obtain ⟨er, ec⟩ := e1
    subst er; subst ec
    rw [getCell_setCell_self (dims_setCell hdA _ _ _) hr1 hc1, h1]
  · rw [getCell_setCell_ne _ _ _ _ _ _ e1]
    by_cases e2 : r = t2.r ∧ c = t2.c
    · obtain ⟨er, ec⟩ := e2
      subst er; subst ec
      rw [getCell_setCell_self hdA hr2 hc2, h2]
    · rw [getCell_setCell_ne _ _ _ _ _ _ e2,
          getCell_setCell_ne _ _ _ _ _ _ e2,
          getCell_setCell_ne _ _ _ _ _ _ e1]
/-- C5.  Swap rejection idempotence: an in-bounds swap between two
non-bomb tiles whose exchange produces no match ends, after the revert,
in exactly the state it started from — the same grid (kind and (row, col)
per cell) and untouched counters. -/
theorem c5_swap_rejection (rng : Nat → Fin 5) (fuel : Nat) (st : EngineState)
    (t1 t2 : Tile) (r2 c2 : Int)
    (hd : Dims st.grid) (hco : Coherent st.grid)
    (hb : ¬(r2 < 0 ∨ 8 ≤ r2 ∨ c2 < 0 ∨ 8 ≤ c2))
    (ht2 : getCell st.grid r2.toNat c2.toNat = some t2)
    (h1 : getCell st.grid t1.r t1.c = some t1)
    (hn1 : t1.type ≠ BOMB_TYPE) (hn2 : t2.type ≠ BOMB_TYPE)
    (hnm : findMatches (swapTilesData st.grid t1 t2).1 = []) :
    attemptSwap rng fuel st t1 r2 c2 = some st := by
  have hbnd := getCell_lt hd ht2
  have h2 : getCell st.grid t2.r t2.c = some t2 := by
    have hco2 := hco.at ht2 hbnd.1 hbnd.2
    rw [hco2.1, hco2.2]
    exact ht2
  unfold attemptSwap
  rw [if_neg hb, ht2]
  dsimp only
  rw [if_neg (fun h => h.elim hn1 hn2), if_pos hnm, swap_twice hd h1 h2]

/-- The tile at `(0,1)` of `safeGrid`. -/
def safeT01 : Tile := ⟨2, 0, 1, COLORS.getD 1 Kind.c1⟩

/-- C5 witness: a concrete rejected swap on `safeGrid` returns the exact
starting state. -/
theorem c5_witness :
    attemptSwap cycleRng 1 safeState safeT00 0 1 = some safeState := by
  exact c5_swap_rejection cycleRng 1 safeState safeT00 safeT01 0 1
    (by decide) (by decide) (by decide) (by decide) (by decide)
    (by decide) (by decide) (by decide)

/-! ## Bomb detonation (C4) -/

/-- Membership in a push-if-absent insertion. -/
theorem mem_insertTile (s : List Tile) (t x : Tile) :
    x ∈ insertTile s t ↔ x ∈ s ∨ x = t := by
  unfold insertTile
  split
  · constructor
    · exact Or.inl
    · rintro (h | rfl)
      · exact h
      · assumption
  · simp [List.mem_append]

/-- Push-if-absent keeps the list duplicate-free. -/
theorem nodup_insertTile (s : List Tile) (t : Tile) (h : s.Nodup) :
    (insertTile s t).Nodup := by
  unfold insertTile
  split
  · exact h
  · simp [List.nodup_append, h]
    intro hx
    simp_all

/-- The scan enumerates exactly the 64 board coordinates. -/
theorem mem_allCells (rc : Nat × Nat) :
    rc ∈ allCells ↔ rc.1 < 8 ∧ rc.2 < 8 := by
  unfold allCells SIZE
  cases rc with
  | mk r c => simp [List.mem_flatMap, List.mem_map, List.mem_range]

/-- The detonation scan collects exactly the board tiles of the target
color. -/
theorem mem_bombScan {g : Grid} (hd : Dims g) (K : Kind) (x : Tile) :
    x ∈ bombScan g K ↔ (∃ r c, getCell g r c = some x) ∧ x.type = K := by
  unfold bombScan
  rw [List.mem_filterMap]
  constructor
  · rintro ⟨rc, _hmem, hf⟩
    cases hg : getCell g rc.1 rc.2 with
    | none => rw [hg] at hf; exact Option.noConfusion hf
    | some t =>
      rw [hg] at hf
      dsimp only at hf
      by_cases ht : t.type = K
      · rw [if_pos ht] at hf
        cases hf
        exact ⟨⟨rc.1, rc.2, hg⟩, ht⟩
      · rw [if_neg ht] at hf
        exact Option.noConfusion hf
  · rintro ⟨⟨r, c, hg⟩, ht⟩
    refine ⟨(r, c), ?_, ?_⟩
    · rw [mem_allCells]
      exact getCell_lt hd hg
    · rw [hg]
      dsimp only
      rw [if_pos ht]

/-- On a coherent grid the scan lists each tile at most once. -/
theorem nodup_bombScan {g : Grid} (hd : Dims g) (hco : Coherent g) (K : Kind) :
    (bombScan g K).Nodup := by
  unfold bombScan
  refine List.Nodup.filterMap ?_ (by decide)
  intro a b t hfa hfb
  have key : ∀ rc : Nat × Nat,
      (match getCell g rc.1 rc.2 with
        | some t => if t.type = K then some t else none
        | none => none) = some t → getCell g rc.1 rc.2 = some t := by
    intro rc hf
    cases hg : getCell g rc.1 rc.2 with
    | none => rw [hg] at hf; exact Option.noConfusion hf
    | some u =>
      rw [hg] at hf
      dsimp only at hf
      by_cases hu : u.type = K
      · rw [if_pos hu] at hf
        cases hf
        rfl
      · rw [if_neg hu] at hf
        exact Option.noConfusion hf
  have ha := key a hfa
  have hb := key b hfb
  have hba := getCell_lt hd ha
  have hbb := getCell_lt hd hb
  have ca := hco.at ha hba.1 hba.2
  have cb := hco.at hb hbb.1 hbb.2
  cases a with
  | mk a1 a2 =>
    cases b with
    | mk b1 b2 =>
      simp only at ca cb
      have e1 : a1 = b1 := by omega
      have e2 : a2 = b2 := by omega
      simp [e1, e2]

/-- C4.  Bomb detonation completeness: the cleared `hits` list holds a
tile iff it is a board tile of the target kind or one of the two swapped
tiles, with no tile listed twice; and the detonation state is exactly the
removal of that list. -/
theorem c4_bomb_detonation (g : Grid) (t1 t2 : Tile) (K : Kind)
    (hd : Dims g) (hco : Coherent g) :
    (∀ x : Tile, x ∈ bombHits g t1 t2 K ↔
      ((∃ r c, getCell g r c = some x) ∧ x.type = K) ∨ x = t1 ∨ x = t2) ∧
    (bombHits g t1 t2 K).Nodup ∧
    (∀ st : EngineState, st.grid = g →
      detonateState st t1 t2 K
        = { st with grid := removeAll g (bombHits g t1 t2 K) }) := by
  refine ⟨?_, ?_, ?_⟩
  · intro x
    unfold bombHits
    rw [mem_insertTile, mem_insertTile, mem_bombScan hd]
    exact or_assoc
  · exact nodup_insertTile _ _ (nodup_insertTile _ _ (nodup_bombScan hd hco K))
  · intro st hst
    unfold detonateState
    rw [hst]

/-- `safeGrid` with a bomb put at `(0,0)`. -/
def bombGrid : Grid := setCell safeGrid 0 0 (some ⟨100, 0, 0, Kind.bomb⟩)

/-- The bomb tile sitting at `(0,0)` of `bombGrid`. -/
def bombT : Tile := ⟨100, 0, 0, Kind.bomb⟩

/-- C4 witness: the detonation of the `(0,0)` bomb against the `c2` tile
at `(0,1)` on a concrete board. -/
theorem c4_witness :
    (∀ x : Tile, x ∈ bombHits bombGrid bombT safeT01 Kind.c2 ↔
      ((∃ r c, getCell bombGrid r c = some x) ∧ x.type = Kind.c2) ∨
        x = bombT ∨ x = safeT01) ∧
    (bombHits bombGrid bombT safeT01 Kind.c2).Nodup ∧
    (∀ st : EngineState, st.grid = bombGrid →
      detonateState st bombT safeT01 Kind.c2
        = { st with
            grid := removeAll bombGrid (bombHits bombGrid bombT safeT01 Kind.c2) }) :=
  c4_bomb_detonation bombGrid bombT safeT01 Kind.c2 (by decide) (by decide)


/-! ## Reset during an in-flight cascade (C8) -/

/-- Two tiles of the pre-reset board, as captured by the pending
continuation of a rejected swap before the reset rebuilt the board. -/
def staleT1 : Tile := ⟨900, 0, 0, Kind.c1⟩

/-- See `staleT1`. -/
def staleT2 : Tile := ⟨901, 0, 1, Kind.c2⟩

/-- The concrete state `initGame` leaves behind on the cycling stream. -/
def c8Fresh : EngineState :=
  (resetState cycleRng).getD ⟨[], 0, 0, 0, 0, 0⟩

/-- C8 fails on the code: the reset handler (`resetBtn` click → `initGame`)
is not guarded and clears no pending continuation, so a swap revert that
resumes after its `await sleep(250)` applies `swapTilesData` to the
closed-over `grid` binding — which now holds the freshly rebuilt board —
and mutates it: after the resumption the new grid no longer equals the
board the reset produced. -/
theorem c8_reset_continuation_mutates :
    resetState cycleRng = some c8Fresh ∧
    (revertContinuation staleT1 staleT2 c8Fresh).grid ≠ c8Fresh.grid := by
  constructor
  · decide
  · decide


/-! ## Grid bijection through the cascade (C6) -/

/-- A fold preserves any invariant its step preserves. -/
theorem foldl_preserve {α β : Type} {P : α → Prop} {f : α → β → α}
    (h : ∀ a b, P a → P (f a b)) :
    ∀ (l : List β) (a : α), P a → P (l.foldl f a) := by
  intro l
  induction l with
  | nil => intro a ha; exact ha
  | cons b l ih => intro a ha; exact ih (f a b) (h a b ha)

/-- `CellOk` for a freshly built cell. -/
theorem cellOk_mk {r c : Fin 8} (t : Tile) (hr : t.r = r.val) (hc : t.c = c.val) :
    CellOk r.val c.val (some t) := ⟨hr, hc⟩

/-- Clearing a cell keeps the grid coherent. -/
theorem coherent_setCell_none {g : Grid} (hd : Dims g) (hco : Coherent g)
    (r c : Nat) : Coherent (setCell g r c none) := by
  intro fr fc
  by_cases he : fr.val = r ∧ fc.val = c
  · obtain ⟨e1, e2⟩ := he
    subst e1
    subst e2
    rw [getCell_setCell_self hd fr.isLt fc.isLt none]
    trivial
  · rw [getCell_setCell_ne _ _ _ _ _ _ he]
    exact hco fr fc

/-- `removeTiles` keeps the 8×8 shape. -/
theorem dims_removeAll {g : Grid} (hd : Dims g) (ts : List Tile) :
    Dims (removeAll g ts) := by
  unfold removeAll
  exact foldl_preserve (P := Dims)
    (f := fun g t => setCell g t.r t.c none)
    (fun a t ha => dims_setCell ha _ _ _) ts g hd

/-- `removeTiles` keeps the grid coherent (it only empties cells). -/
theorem coherent_removeAll {g : Grid} (hd : Dims g) (hco : Coherent g)
    (ts : List Tile) : Coherent (removeAll g ts) := by
  unfold removeAll
  have := foldl_preserve
    (P := fun a => Dims a ∧ Coherent a)
    (f := fun a t => setCell a t.r t.c none)
    (fun a t ha => ⟨dims_setCell ha.1 _ _ _,
      coherent_setCell_none ha.1 ha.2 _ _⟩)
    ts g ⟨hd, hco⟩
  exact this.2

/-- What the upward search of the gravity loop returns: a tile actually
sitting in the column, strictly above the hole. -/
theorem findAbove_spec (g : Grid) (c : Nat) :
    ∀ (n k : Nat) (t : Tile), findAbove g c n = some (k, t) →
      getCell g k c = some t ∧ k < n := by
  intro n
  induction n with
  | zero => intro k t h; exact Option.noConfusion h
  | succ m ih =>
    intro k t h
    unfold findAbove at h
    cases hg : getCell g m c with
    | some u =>
      rw [hg] at h
      cases h
      exact ⟨hg, Nat.lt_succ_self m⟩
    | none =>
      rw [hg] at h
      obtain ⟨h1, h2⟩ := ih k t h
      exact ⟨h1, Nat.lt_succ_of_lt h2⟩

/-- One gravity step keeps the 8×8 shape. -/
theorem dims_gravityStep {g : Grid} (hd : Dims g) (c r : Nat) :
    Dims (gravityStep g c r) := by
  unfold gravityStep
  split
  · exact hd
  · split
    · exact hd
    · exact dims_setCell (dims_setCell hd _ _ _) _ _ _

/-- One gravity step keeps the grid coherent: the pulled-down tile is
restamped with its new row and keeps its column. -/
theorem coherent_gravityStep {g : Grid} (hd : Dims g) (hco : Coherent g)
    (c r : Nat) : Coherent (gravityStep g c r) := by
  unfold gravityStep
  split
  · exact hco
  · split
    · exact hco
    · rename_i hcell hfind k t heq
      obtain ⟨hkc, _hk⟩ := findAbove_spec g c r k t heq
      obtain ⟨hkb, hcb⟩ := getCell_lt hd hkc
      have htc := (hco.at hkc hkb hcb).2
      intro fr fc
      by_cases e2 : fr.val = k ∧ fc.val = c
      · obtain ⟨f1, f2⟩ := e2
        subst f1
        subst f2
        rw [getCell_setCell_self (dims_setCell hd _ _ _) fr.isLt fc.isLt none]
        trivial
      · rw [getCell_setCell_ne _ _ _ _ _ _ e2]
        by_cases e1 : fr.val = r ∧ fc.val = c
        · obtain ⟨f1, f2⟩ := e1
          subst f1
          subst f2
          rw [getCell_setCell_self hd fr.isLt fc.isLt]
          exact ⟨rfl, htc⟩
        · rw [getCell_setCell_ne _ _ _ _ _ _ e1]
          exact hco fr fc

/-- The whole gravity pass keeps shape and coherence. -/
theorem dims_coherent_gravity {g : Grid} (hd : Dims g) (hco : Coherent g) :
    Dims (gravity g) ∧ Coherent (gravity g) := by
  unfold gravity
  refine foldl_preserve (P := fun a => Dims a ∧ Coherent a) ?_ _ g ⟨hd, hco⟩
  intro a c ha
  exact foldl_preserve (P := fun a => Dims a ∧ Coherent a)
    (fun a r ha => ⟨dims_gravityStep ha.1 c r,
      coherent_gravityStep ha.1 ha.2 c r⟩) _ a ha
/-- One refill step keeps shape and coherence: a spawned tile is stamped
with its own cell. -/
theorem dims_coherent_refillCell (rng : Nat → Fin 5) {a : FillAcc}
    (hd : Dims a.grid) (hco : Coherent a.grid) (c r : Nat) :
    Dims (refillCell rng a c r).grid ∧ Coherent (refillCell rng a c r).grid := by
  unfold refillCell
  split
  · exact ⟨hd, hco⟩
  · refine ⟨dims_setCell hd _ _ _, ?_⟩
    intro fr fc
    by_cases he : fr.val = r ∧ fc.val = c
    · obtain ⟨e1, e2⟩ := he
      subst e1
      subst e2
      rw [getCell_setCell_self hd fr.isLt fc.isLt]
      exact ⟨rfl, rfl⟩
    · rw [getCell_setCell_ne _ _ _ _ _ _ he]
      exact hco fr fc

/-- A refill step never empties a cell. -/
theorem refillCell_isSome_mono (rng : Nat → Fin 5) {a : FillAcc} (c r : Nat)
    {r' c' : Nat} (h : (getCell a.grid r' c').isSome) :
    (getCell (refillCell rng a c r).grid r' c').isSome := by
  unfold refillCell
  split
  · exact h
  · rename_i hcell
    by_cases he : r' = r ∧ c' = c
    · rw [he.1, he.2] at h
      rw [hcell] at h
      exact absurd h (by simp)
    · rw [getCell_setCell_ne _ _ _ _ _ _ he]
      exact h

/-- After its own step, the visited cell is occupied. -/
theorem refillCell_fills (rng : Nat → Fin 5) {a : FillAcc}
    (hd : Dims a.grid) {c r : Nat} (hr : r < 8) (hc : c < 8) :
    (getCell (refillCell rng a c r).grid r c).isSome := by
  unfold refillCell
  split
  · rename_i u hcell
    rw [hcell]
    rfl
  · rw [getCell_setCell_self hd hr hc]
    rfl

/-- After the inner refill loop, every visited row of the column is
occupied. -/
theorem refill_col_some (rng : Nat → Fin 5) (c : Nat) (hc : c < 8) :
    ∀ (rows : List Nat) (a : FillAcc), Dims a.grid → Coherent a.grid →
      ∀ r ∈ rows, r < 8 →
        (getCell ((rows.foldl (fun a r => refillCell rng a c r) a)).grid r c).isSome := by
  intro rows
  induction rows with
  | nil => intro a _ _ r hr; exact absurd hr (List.not_mem_nil r)
  | cons r0 rest ih =>
    intro a hd hco r hr hr8
    rw [List.foldl_cons]
    rcases List.mem_cons.mp hr with h | h
    · subst h
      refine foldl_preserve
        (P := fun a : FillAcc => (getCell a.grid r c).isSome)
        (f := fun a r' => refillCell rng a c r')
        (fun a b ha => refillCell_isSome_mono rng c b ha) rest _ ?_
      exact refillCell_fills rng hd hr8 hc
    · obtain ⟨hd', hco'⟩ := dims_coherent_refillCell rng hd hco c r0
      exact ih _ hd' hco' r h hr8

/-- The refill double loop keeps shape and coherence. -/
theorem dims_coherent_refill_fold (rng : Nat → Fin 5) :
    ∀ (cols : List Nat) (a : FillAcc), Dims a.grid → Coherent a.grid →
      Dims ((cols.foldl (fun a c =>
          (List.range SIZE).foldl (fun a r => refillCell rng a c r) a) a)).grid ∧
      Coherent ((cols.foldl (fun a c =>
          (List.range SIZE).foldl (fun a r => refillCell rng a c r) a) a)).grid := by
  intro cols a hd hco
  refine foldl_preserve
    (P := fun a : FillAcc => Dims a.grid ∧ Coherent a.grid) ?_ cols a ⟨hd, hco⟩
  intro a c ha
  exact foldl_preserve
    (P := fun a : FillAcc => Dims a.grid ∧ Coherent a.grid)
    (fun a r ha => dims_coherent_refillCell rng ha.1 ha.2 c r) _ a ha

/-- After the refill double loop, every board cell is occupied. -/
theorem refill_all_some (rng : Nat → Fin 5) :
    ∀ (cols : List Nat) (a : FillAcc), Dims a.grid → Coherent a.grid →
      ∀ c ∈ cols, c < 8 → ∀ r : Nat, r < 8 →
        (getCell ((cols.foldl (fun a c =>
          (List.range SIZE).foldl (fun a r => refillCell rng a c r) a) a)).grid r c).isSome := by
  intro cols
  induction cols with
  | nil => intro a _ _ c hc; exact absurd hc (List.not_mem_nil c)
  | cons c0 rest ih =>
    intro a hd hco c hc hc8 r hr8
    rw [List.foldl_cons]
    rcases List.mem_cons.mp hc with h | h
    · subst h
      refine foldl_preserve
        (P := fun a : FillAcc => (getCell a.grid r c).isSome)
        (f := fun a c' => (List.range SIZE).foldl (fun a r => refillCell rng a c' r) a)
        ?_ rest _ ?_
      · intro a b ha
        exact foldl_preserve
          (P := fun a : FillAcc => (getCell a.grid r c).isSome)
          (fun a r' ha => refillCell_isSome_mono rng b r' ha) _ a ha
      · exact refill_col_some rng c hc8 (List.range SIZE) a hd hco r
          (List.mem_range.mpr hr8) hr8
    · obtain ⟨hd', hco'⟩ := dims_coherent_refill_fold rng [c0] a hd hco
      rw [List.foldl_cons, List.foldl_nil] at hd' hco'
      exact ih _ hd' hco' c h hc8 r hr8

theorem refillAcc_props (rng : Nat → Fin 5) (a : FillAcc)
    (hd : Dims a.grid) (hco : Coherent a.grid) :
    Dims (refillAcc rng a).grid ∧ Coherent (refillAcc rng a).grid ∧
      ∀ r c : Nat, r < 8 → c < 8 →
        (getCell (refillAcc rng a).grid r c).isSome := by
  unfold refillAcc
  refine ⟨(dims_coherent_refill_fold rng _ a hd hco).1,
    (dims_coherent_refill_fold rng _ a hd hco).2, ?_⟩
  intro r c hr hc
  exact refill_all_some rng (List.range SIZE) a hd hco c
    (List.mem_range.mpr hc) hc r hr

/-- Unfolding `refillSt` down to the accumulator loop. -/
theorem refillSt_grid (rng : Nat → Fin 5) (st : EngineState) :
    (refillSt rng st).grid
      = (refillAcc rng ⟨st.grid, st.pendingBombs, st.nextId, st.rngCtr⟩).grid := by
  dsimp only [refillSt]

/-- The refill phase keeps shape and coherence, and leaves a full
board. -/
theorem refillSt_props (rng : Nat → Fin 5) (st : EngineState)
    (hd : Dims st.grid) (hco : Coherent st.grid) :
    Dims (refillSt rng st).grid ∧ Coherent (refillSt rng st).grid ∧
      Full (refillSt rng st).grid := by
  refine ⟨?_, ?_, ?_⟩
  · rw [refillSt_grid]
    unfold refillAcc
    exact (dims_coherent_refill_fold rng _ _ hd hco).1
  · rw [refillSt_grid]
    unfold refillAcc
    exact (dims_coherent_refill_fold rng _ _ hd hco).2
  · intro fr fc hnone
    rw [refillSt_grid] at hnone
    unfold refillAcc at hnone
    have hs := refill_all_some rng (List.range SIZE)
      (FillAcc.mk st.grid st.pendingBombs st.nextId st.rngCtr) hd hco fc.val
      (List.mem_range.mpr fc.isLt) fc.isLt fr.val fr.isLt
    rw [hnone] at hs
    exact Bool.noConfusion hs
/-- The grid component of a cascade step is the removal of the matched
tiles. -/
theorem stepMatches_grid (st : EngineState) (ms : List Tile) (combo : Nat) :
    (stepMatches st ms combo).grid = removeAll st.grid ms := by
  dsimp only [stepMatches]

/-- The grid component of a detonation is the removal of the hits. -/
theorem detonateState_grid (st : EngineState) (t1 t2 : Tile) (K : Kind) :
    (detonateState st t1 t2 K).grid
      = removeAll st.grid (bombHits st.grid t1 t2 K) := by
  dsimp only [detonateState]

/-- `fillBoard` when the re-scan is empty: the cascade ends with the
settled state. -/
theorem fillBoard_empty (rng : Nat → Fin 5) (f : Nat) (st : EngineState) (cb : Nat)
    (h : findMatches (refillSt rng { st with grid := gravity st.grid }).grid = []) :
    fillBoard rng f st cb
      = some (refillSt rng { st with grid := gravity st.grid }) := by
  cases f with
  | zero =>
    show (let st1 := refillSt rng { st with grid := gravity st.grid };
          let nm := findMatches st1.grid;
          if nm = [] then some st1 else none) = _
    rw [if_pos h]
  | succ f =>
    show (let st1 := refillSt rng { st with grid := gravity st.grid };
          let nm := findMatches st1.grid;
          if nm = [] then some st1
          else fillBoard rng f (stepMatches st1 nm (cb + 1)) (cb + 1)) = _
    rw [if_pos h]

/-- `fillBoard` with exhausted fuel and a non-empty re-scan. -/
theorem fillBoard_zero_ne (rng : Nat → Fin 5) (st : EngineState) (cb : Nat)
    (h : findMatches (refillSt rng { st with grid := gravity st.grid }).grid ≠ []) :
    fillBoard rng 0 st cb = none := by
  show (let st1 := refillSt rng { st with grid := gravity st.grid };
        let nm := findMatches st1.grid;
        if nm = [] then some st1 else none) = _
  rw [if_neg h]

/-- Projection of a grid update. -/
theorem grid_update_grid (st : EngineState) (g : Grid) :
    ({ st with grid := g } : EngineState).grid = g := rfl

/-- `swapTilesData` keeps shape, coherence and fullness: both written
tiles are restamped with the coordinates of the cell that receives
them. -/
theorem swap_props {g : Grid} (hd : Dims g) (hco : Coherent g) (hfull : Full g)
    (t1 t2 : Tile) :
    Dims (swapTilesData g t1 t2).1 ∧ Coherent (swapTilesData g t1 t2).1 ∧
      Full (swapTilesData g t1 t2).1 := by
  dsimp only [swapTilesData]
  refine ⟨dims_setCell (dims_setCell hd _ _ _) _ _ _, ?_, ?_⟩
  · intro fr fc
    by_cases e2 : fr.val = t2.r ∧ fc.val = t2.c
    · obtain ⟨f1, f2⟩ := e2
      rw [f1, f2]
      rw [getCell_setCell_self (dims_setCell hd _ _ _)
        (f1 ▸ fr.isLt) (f2 ▸ fc.isLt)]
      exact ⟨rfl, rfl⟩
    · rw [getCell_setCell_ne _ _ _ _ _ _ e2]
      by_cases e1 : fr.val = t1.r ∧ fc.val = t1.c
      · obtain ⟨f1, f2⟩ := e1
        rw [f1, f2]
        rw [getCell_setCell_self hd (f1 ▸ fr.isLt) (f2 ▸ fc.isLt)]
        exact ⟨rfl, rfl⟩
      · rw [getCell_setCell_ne _ _ _ _ _ _ e1]
        exact hco fr fc
  · intro fr fc
    by_cases e2 : fr.val = t2.r ∧ fc.val = t2.c
    · obtain ⟨f1, f2⟩ := e2
      rw [f1, f2]
      rw [getCell_setCell_self (dims_setCell hd _ _ _)
        (f1 ▸ fr.isLt) (f2 ▸ fc.isLt)]
      exact Option.noConfusion
    · rw [getCell_setCell_ne _ _ _ _ _ _ e2]
      by_cases e1 : fr.val = t1.r ∧ fc.val = t1.c
      · obtain ⟨f1, f2⟩ := e1
        rw [f1, f2]
        rw [getCell_setCell_self hd (f1 ▸ fr.isLt) (f2 ▸ fc.isLt)]
        exact Option.noConfusion
      · rw [getCell_setCell_ne _ _ _ _ _ _ e1]
        exact hfull fr fc

section SealedCascade

attribute [local irreducible] refillCell refillAcc refillSt gravityStep gravity
attribute [local irreducible] findMatches scanLineInto linePassFrom flushRun
attribute [local irreducible] removeAll stepMatches fillBoard setCell getCell

/-- Any state produced by the cascade loop has an 8×8, coherent, full
grid. -/
theorem fillBoard_bijection (rng : Nat → Fin 5) :
    ∀ (fuel : Nat) (st : EngineState) (cb : Nat) (st' : EngineState),
      Dims st.grid → Coherent st.grid →
      fillBoard rng fuel st cb = some st' →
      Dims st'.grid ∧ Coherent st'.grid ∧ Full st'.grid := by
  intro fuel
  induction fuel with
  | zero =>
    intro st cb st' hd hco h
    have hg := dims_coherent_gravity (g := st.grid) hd hco
    have e := grid_update_grid st (gravity st.grid)
    by_cases hm : findMatches
        (refillSt rng { st with grid := gravity st.grid }).grid = []
    · rw [fillBoard_empty rng 0 st cb hm] at h
      cases h
      generalize hX : ({ st with grid := gravity st.grid } : EngineState) = X at e ⊢
      rw [← e] at hg
      exact refillSt_props rng X hg.1 hg.2
    · rw [fillBoard_zero_ne rng st cb hm] at h
      exact Option.noConfusion h
  | succ f ih =>
    intro st cb st' hd hco h
    have hg := dims_coherent_gravity (g := st.grid) hd hco
    have e := grid_update_grid st (gravity st.grid)
    by_cases hm : findMatches
        (refillSt rng { st with grid := gravity st.grid }).grid = []
    · rw [fillBoard_empty rng (f + 1) st cb hm] at h
      cases h
      generalize hX : ({ st with grid := gravity st.grid } : EngineState) = X at e ⊢
      rw [← e] at hg
      exact refillSt_props rng X hg.1 hg.2
    · rw [fillBoard_succ rng f st cb hm] at h
      generalize hX : ({ st with grid := gravity st.grid } : EngineState) = X at e h
      rw [← e] at hg
      have hst1 := refillSt_props rng X hg.1 hg.2
      refine ih _ _ st' ?_ ?_ h
      · rw [stepMatches_grid]
        exact dims_removeAll hst1.1 _
      · rw [stepMatches_grid]
        exact coherent_removeAll hst1.1 hst1.2.1 _

/-- On a coherent grid a tile occupies at most one cell. -/
theorem coherent_unique {g : Grid} (hd : Dims g) (hco : Coherent g)
    {r c r' c' : Nat} {t : Tile} (h1 : getCell g r c = some t)
    (h2 : getCell g r' c' = some t) : r = r' ∧ c = c' := by
  obtain ⟨hb1, hb2⟩ := getCell_lt hd h1
  obtain ⟨hb1', hb2'⟩ := getCell_lt hd h2
  have e1 := hco.at h1 hb1 hb2
  have e2 := hco.at h2 hb1' hb2'
  omega

/-- C6.  Grid bijection: whatever `attemptSwap` does — rejection, revert,
cascade or detonation — the state it hands back at the end of the busy
phase has all 64 cells occupied by exactly one tile each, every tile
stamped with the coordinates of its own cell, and no tile referenced by
two cells. -/
theorem c6_grid_bijection (rng : Nat → Fin 5) (fuel : Nat) (st : EngineState)
    (t1 : Tile) (r2 c2 : Int) (st' : EngineState)
    (hd : Dims st.grid) (hco : Coherent st.grid) (hfull : Full st.grid)
    (h : attemptSwap rng fuel st t1 r2 c2 = some st') :
    (Dims st'.grid ∧ Coherent st'.grid ∧ Full st'.grid) ∧
    (∀ (r c r' c' : Nat) (t : Tile), getCell st'.grid r c = some t →
      getCell st'.grid r' c' = some t → r = r' ∧ c = c') := by
  have main : Dims st'.grid ∧ Coherent st'.grid ∧ Full st'.grid := by
    unfold attemptSwap at h
    split at h
    · cases h
      exact ⟨hd, hco, hfull⟩
    · split at h
      · cases h
        exact ⟨hd, hco, hfull⟩
      · rename_i t2 hlookup
        split at h
        · split at h
          · cases h
            exact ⟨hd, hco, hfull⟩
          · unfold triggerBomb at h
            have hdet : Dims (detonateState st t1 t2
                  (if t1.type = BOMB_TYPE then t2.type else t1.type)).grid ∧
                Coherent (detonateState st t1 t2
                  (if t1.type = BOMB_TYPE then t2.type else t1.type)).grid := by
              rw [detonateState_grid]
              exact ⟨dims_removeAll hd _, coherent_removeAll hd hco _⟩
            exact fillBoard_bijection rng fuel _ 2 st' hdet.1 hdet.2 h
        · dsimp only at h
          split at h
          · cases h
            have hs1 := swap_props hd hco hfull t1 t2
            have hs2 := swap_props hs1.1 hs1.2.1 hs1.2.2
              (swapTilesData st.grid t1 t2).2.1 (swapTilesData st.grid t1 t2).2.2
            refine ⟨?_, ?_, ?_⟩ <;> dsimp only
            · exact hs2.1
            · exact hs2.2.1
            · exact hs2.2.2
          · have hs1 := swap_props hd hco hfull t1 t2
            have hstep : Dims (stepMatches
                  { st with grid := (swapTilesData st.grid t1 t2).1 }
                  (findMatches (swapTilesData st.grid t1 t2).1) 1).grid ∧
                Coherent (stepMatches
                  { st with grid := (swapTilesData st.grid t1 t2).1 }
                  (findMatches (swapTilesData st.grid t1 t2).1) 1).grid := by
              rw [stepMatches_grid, grid_update_grid]
              exact ⟨dims_removeAll hs1.1 _, coherent_removeAll hs1.1 hs1.2.1 _⟩
            unfold processMatches at h
            exact fillBoard_bijection rng fuel _ 1 st' hstep.1 hstep.2 h
  exact ⟨main, fun r c r' c' t h1 h2 =>
    coherent_unique main.1 main.2.1 h1 h2⟩

end SealedCascade

/-- C6 witness: a rejected off-board swap at a concrete coherent full
state. -/
theorem c6_witness :
    (Dims safeState.grid ∧ Coherent safeState.grid ∧ Full safeState.grid) ∧
    (∀ (r c r' c' : Nat) (t : Tile), getCell safeState.grid r c = some t →
      getCell safeState.grid r' c' = some t → r = r' ∧ c = c') :=
  c6_grid_bijection cycleRng 1 safeState safeT00 (-1) 0 safeState
    (by decide) (by decide) (by decide) (by decide)


theorem causesMatch_row_ext (r c : Nat) (type : Kind) (row ext : List Tile)
    (grid : List (List Tile)) (hc : c ≤ row.length) :
    causesMatch r c type (row ++ ext) grid = causesMatch r c type row grid := by
  unfold causesMatch
  by_cases h2 : 2 ≤ c
  · rw [List.get?_append (by omega), List.get?_append (by omega)]
  · have hd : decide (2 ≤ c) = false := by simp; omega
    rw [hd]
    simp only [Bool.false_and]

theorem causesMatch_grid_ext (r c : Nat) (type : Kind) (row : List Tile)
    (grid ext : List (List Tile)) (hr : r ≤ grid.length) :
    causesMatch r c type row (grid ++ ext) = causesMatch r c type row grid := by
  unfold causesMatch
  by_cases h2 : 2 ≤ r
  · rw [List.get?_append (by omega), List.get?_append (by omega)]
  · have hd : decide (2 ≤ r) = false := by simp; omega
    rw [hd]
    simp only [Bool.false_and]

theorem sampleUntil_ok (rng : Nat → Fin 5) (bad : Kind → Bool) :
    ∀ (fuel ctr : Nat) (t : Kind) (ctr' : Nat),
      sampleUntil rng bad fuel ctr = some (t, ctr') → bad t = false := by
  intro fuel
  induction fuel with
  | zero => intro ctr t ctr' h; exact Option.noConfusion h
  | succ f ih =>
    intro ctr t ctr' h
    unfold sampleUntil at h
    by_cases hb : bad (drawType rng ctr) = true
    · rw [if_pos hb] at h
      exact ih _ _ _ h
    · rw [if_neg hb] at h
      cases h
      exact Bool.not_eq_true _ |>.mp hb

/-- The row property maintained by the inner init loop: every placed tile
passed its rejection test, read against the very row being built. -/
def RowOk (r : Nat) (grid : List (List Tile)) (row : List Tile) : Prop :=
  ∀ c t, row.get? c = some t → causesMatch r c t.type row grid = false

theorem buildRowFrom_ok (rng : Nat → Fin 5) (r : Nat) (grid : List (List Tile)) :
    ∀ (n : Nat) (row : List Tile) (nid ctr : Nat) (out : List Tile × Nat × Nat),
      buildRowFrom rng r grid n row nid ctr = some out →
      RowOk r grid row →
      out.1.length = row.length + n ∧ RowOk r grid out.1 := by
  intro n
  induction n with
  | zero =>
    intro row nid ctr out h hok
    cases h
    exact ⟨rfl, hok⟩
  | succ m ih =>
    intro row nid ctr out h hok
    unfold buildRowFrom at h
    dsimp only at h
    cases hs : sampleUntil rng (fun k => causesMatch r row.length k row grid)
        RESAMPLE_FUEL ctr with
    | none => rw [hs] at h; exact Option.noConfusion h
    | some p =>
      obtain ⟨pt, pc⟩ := p
      rw [hs] at h
      dsimp only at h
      have hbad := sampleUntil_ok rng _ RESAMPLE_FUEL ctr pt pc hs
      have hstep : RowOk r grid (row ++ [⟨nid, r, row.length, pt⟩]) := by
        intro c t hc
        by_cases hlt : c < row.length
        · rw [List.get?_append hlt] at hc
          rw [causesMatch_row_ext r c t.type row _ grid (by omega)]
          exact hok c t hc
        · by_cases heq : c = row.length
          · subst heq
            rw [List.get?_concat_length] at hc
            cases hc
            rw [causesMatch_row_ext r row.length _ row _ grid (le_refl _)]
            exact hbad
          · rw [List.get?_eq_none.mpr (by simp; omega)] at hc
            exact Option.noConfusion hc
      obtain ⟨hlen, hok'⟩ := ih (row ++ [⟨nid, r, row.length, pt⟩])
        (nid + 1) pc out h hstep
      refine ⟨?_, hok'⟩
      rw [hlen]
      simp
      omega
/-- The board property established by the outer init loop. -/
def BoardOk (b : List (List Tile)) : Prop :=
  ∀ r row, b.get? r = some row →
    ∀ c t, row.get? c = some t → causesMatch r c t.type row b = false

theorem buildRow_ok (rng : Nat → Fin 5) (r : Nat) (grid : List (List Tile))
    (nid ctr : Nat) (out : List Tile × Nat × Nat)
    (h : buildRow rng r grid nid ctr = some out) :
    out.1.length = SIZE ∧ RowOk r grid out.1 := by
  unfold buildRow at h
  obtain ⟨hlen, hok⟩ := buildRowFrom_ok rng r grid SIZE [] nid ctr out h
    (fun c t hc => Option.noConfusion hc)
  exact ⟨by simpa using hlen, hok⟩

theorem initFrom_ok (rng : Nat → Fin 5) :
    ∀ (n : Nat) (g : List (List Tile)) (nid ctr : Nat)
      (out : List (List Tile) × Nat × Nat),
      initFrom rng n g nid ctr = some out →
      (∀ row ∈ g, row.length = SIZE) → BoardOk g →
      out.1.length = g.length + n ∧
        (∀ row ∈ out.1, row.length = SIZE) ∧ BoardOk out.1 := by
  intro n
  induction n with
  | zero =>
    intro g nid ctr out h hlens hok
    cases h
    exact ⟨rfl, hlens, hok⟩
  | succ m ih =>
    intro g nid ctr out h hlens hok
    unfold initFrom at h
    cases hb : buildRow rng g.length g nid ctr with
    | none => rw [hb] at h; exact Option.noConfusion h
    | some p =>
      obtain ⟨row', nid', ctr'⟩ := p
      rw [hb] at h
      dsimp only at h
      obtain ⟨hrl, hrok⟩ := buildRow_ok rng g.length g nid ctr _ hb
      have hlens' : ∀ row ∈ g ++ [row'], row.length = SIZE := by
        intro row hm
        rcases List.mem_append.mp hm with hm | hm
        · exact hlens row hm
        · rw [List.mem_singleton.mp hm]
          exact hrl
      have hok' : BoardOk (g ++ [row']) := by
        intro r row hr c t hc
        by_cases hlt : r < g.length
        · rw [List.get?_append hlt] at hr
          rw [causesMatch_grid_ext r c t.type row g _ (by omega)]
          exact hok r row hr c t hc
        · by_cases heq : r = g.length
          · subst heq
            rw [List.get?_concat_length] at hr
            cases hr
            rw [causesMatch_grid_ext _ c t.type row' g _ (le_refl _)]
            exact hrok c t hc
          · rw [List.get?_eq_none.mpr (by simp; omega)] at hr
            exact Option.noConfusion hr
      obtain ⟨hl, hl2, hok''⟩ := ih (g ++ [row']) nid' ctr' out h hlens' hok'
      refine ⟨?_, hl2, hok''⟩
      rw [hl]
      simp
      omega

theorem initGame_ok (rng : Nat → Fin 5) (b : List (List Tile)) (nid ctr : Nat)
    (h : initGame rng = some (b, nid, ctr)) :
    b.length = SIZE ∧ (∀ row ∈ b, row.length = SIZE) ∧ BoardOk b := by
  unfold initGame at h
  obtain ⟨hl, hl2, hok⟩ := initFrom_ok rng SIZE [] 1 0 (b, nid, ctr) h
    (fun row hm => absurd hm (List.not_mem_nil row))
    (fun r row hr => Option.noConfusion hr)
  exact ⟨by simpa using hl, hl2, hok⟩
theorem getCell_boardToGrid (b : List (List Tile)) (r c : Nat) :
    getCell (boardToGrid b) r c = (b.get? r).bind (fun row => row.get? c) := by
  unfold getCell boardToGrid
  rw [List.get?_map]
  cases b.get? r with
  | none => rfl
  | some row =>
    dsimp only [Option.map_some', Option.some_bind]
    rw [List.get?_map]
    cases row.get? c <;> rfl

/-- A position where the line scan would extend its run: two consecutive
present tiles of equal non-bomb kind. -/
def lineStepOk (line : Nat → Option Tile) (c : Nat) : Prop :=
  ∃ t u, line c = some t ∧ line (c + 1) = some u ∧
    t.type = u.type ∧ t.type ≠ BOMB_TYPE

theorem flushRun_small (line : Nat → Option Tile) (c m : Nat)
    (acc : List Tile) (h : m < 3) : flushRun line c m acc = acc := by
  unfold flushRun
  rw [if_neg (by omega)]

theorem linePass_no_triple (line : Nat → Option Tile)
    (hnt : ∀ c, lineStepOk line c → ¬ lineStepOk line (c + 1)) :
    ∀ (rem c m : Nat) (acc : List Tile), 1 ≤ m → m ≤ 2 →
      (m = 2 → 1 ≤ c ∧ lineStepOk line (c - 1)) →
      linePassFrom line rem c m acc = acc := by
  intro rem
  induction rem with
  | zero => intro c m acc _ _ _; rfl
  | succ k ih =>
    intro c m acc h1 h2 h3
    unfold linePassFrom
    cases hc : line c with
    | none =>
      cases hd : line (c + 1) with
      | none =>
        dsimp only
        rw [flushRun_small line c m acc (by omega)]
        exact ih (c + 1) 1 acc (le_refl 1) (by omega)
          (fun h => absurd h (by decide))
      | some next =>
        dsimp only
        rw [flushRun_small line c m acc (by omega)]
        exact ih (c + 1) 1 acc (le_refl 1) (by omega)
          (fun h => absurd h (by decide))
    | some curr =>
      cases hd : line (c + 1) with
      | none =>
        dsimp only
        rw [flushRun_small line c m acc (by omega)]
        exact ih (c + 1) 1 acc (le_refl 1) (by omega)
          (fun h => absurd h (by decide))
      | some next =>
        dsimp only
        by_cases hcond : curr.type = next.type ∧ curr.type ≠ BOMB_TYPE
        · rw [if_pos hcond]
          have hstep : lineStepOk line c :=
            ⟨curr, next, hc, hd, hcond.1, hcond.2⟩
          have hm1 : m = 1 := by
            by_contra hne
            have hm2 : m = 2 := by omega
            obtain ⟨hc1, hprev⟩ := h3 hm2
            have hcontra := hnt (c - 1) hprev
            rw [Nat.sub_add_cancel hc1] at hcontra
            exact hcontra hstep
          subst hm1
          exact ih (c + 1) 2 acc (by omega) (le_refl 2)
            (fun _ => ⟨by omega, by rw [Nat.add_sub_cancel]; exact hstep⟩)
        · rw [if_neg hcond]
          rw [flushRun_small line c m acc (by omega)]
          exact ih (c + 1) 1 acc (le_refl 1) (by omega)
            (fun h => absurd h (by decide))

theorem scanLineInto_id (line : Nat → Option Tile)
    (hnt : ∀ c, lineStepOk line c → ¬ lineStepOk line (c + 1))
    (acc : List Tile) : scanLineInto line acc = acc :=
  linePass_no_triple line hnt SIZE 0 1 acc (le_refl 1) (by omega)
    (fun h => absurd h (by decide))

theorem foldl_id {α β : Type} (f : α → β → α) (l : List β)
    (h : ∀ a x, x ∈ l → f a x = a) : ∀ a : α, l.foldl f a = a := by
  induction l with
  | nil => intro a; rfl
  | cons x xs ih =>
    intro a
    rw [List.foldl_cons, h a x (List.mem_cons_self x xs)]
    exact ih (fun a y hy => h a y (List.mem_cons_of_mem x hy)) a

theorem boardOk_row_step (b : List (List Tile)) (hok : BoardOk b) (r c : Nat)
    (h1 : lineStepOk (fun j => getCell (boardToGrid b) r j) c) :
    ¬ lineStepOk (fun j => getCell (boardToGrid b) r j) (c + 1) := by
  rintro ⟨t', u', hv1, hv2, hty2, hnb2⟩
  obtain ⟨t, u, hu0, hu1, hty1, hnb1⟩ := h1
  simp only [getCell_boardToGrid] at hv1 hv2 hu0 hu1
  obtain ⟨row, hb, hrt⟩ := Option.bind_eq_some.mp hu0
  obtain ⟨row1, hb1, hru⟩ := Option.bind_eq_some.mp hu1
  obtain ⟨row2, hb2, hrt'⟩ := Option.bind_eq_some.mp hv1
  obtain ⟨row3, hb3, hru'⟩ := Option.bind_eq_some.mp hv2
  rw [hb] at hb1 hb2 hb3
  cases hb1
  cases hb2
  cases hb3
  have hut : u = t' := by
    rw [hru] at hrt'
    exact Option.some.inj hrt'
  have hfalse := hok r row hb (c + 2) u' (by
    rw [show c + 2 = c + 1 + 1 from rfl]
    exact hru')
  unfold causesMatch at hfalse
  rw [Bool.or_eq_false_iff] at hfalse
  obtain ⟨hA, _⟩ := hfalse
  rw [show c + 2 - 1 = c + 1 from rfl, show c + 2 - 2 = c from rfl,
    hru, hrt] at hA
  rw [decide_eq_true (by omega : 2 ≤ c + 2)] at hA
  dsimp only at hA
  rw [Bool.true_and, Bool.and_eq_false_iff] at hA
  rcases hA with hA | hA
  · rw [beq_eq_false_iff_ne] at hA
    exact hA (hut ▸ hty2)
  · rw [beq_eq_false_iff_ne] at hA
    exact hA (by rw [hty1, hut, hty2])

theorem boardOk_col_step (b : List (List Tile)) (hok : BoardOk b) (c r : Nat)
    (h1 : lineStepOk (fun i => getCell (boardToGrid b) i c) r) :
    ¬ lineStepOk (fun i => getCell (boardToGrid b) i c) (r + 1) := by
  rintro ⟨t', u', hv1, hv2, hty2, hnb2⟩
  obtain ⟨t, u, hu0, hu1, hty1, hnb1⟩ := h1
  simp only [getCell_boardToGrid] at hv1 hv2 hu0 hu1
  obtain ⟨row2, hb2, hru'⟩ := Option.bind_eq_some.mp hv2
  have hut : u = t' := by
    rw [hu1] at hv1
    exact Option.some.inj hv1
  have hfalse := hok (r + 2) row2 (by
    rw [show r + 2 = r + 1 + 1 from rfl]
    exact hb2) c u' hru'
  unfold causesMatch at hfalse
  rw [Bool.or_eq_false_iff] at hfalse
  obtain ⟨_, hB⟩ := hfalse
  rw [show r + 2 - 1 = r + 1 from rfl, show r + 2 - 2 = r from rfl,
    hu1, hu0] at hB
  rw [decide_eq_true (by omega : 2 ≤ r + 2)] at hB
  dsimp only at hB
  rw [Bool.true_and, Bool.and_eq_false_iff] at hB
  rcases hB with hB | hB
  · rw [beq_eq_false_iff_ne] at hB
    exact hB (hut ▸ hty2)
  · rw [beq_eq_false_iff_ne] at hB
    exact hB (by rw [hty1, hut, hty2])

theorem findMatches_empty_of_boardOk (b : List (List Tile))
    (hok : BoardOk b) : findMatches (boardToGrid b) = [] := by
  unfold findMatches
  dsimp only
  rw [foldl_id _ _ (fun acc r _ =>
    scanLineInto_id _ (fun c => boardOk_row_step b hok r c) acc)]
  exact foldl_id _ _ (fun acc c _ =>
    scanLineInto_id _ (fun r => boardOk_col_step b hok c r) acc) []

/-- C1: every board produced by the rejection-sampling initialisation is
free of matches: `findMatches` on it returns the empty set. -/
theorem c1_init_no_matches (rng : Nat → Fin 5) (b : List (List Tile))
    (nid ctr : Nat) (h : initGame rng = some (b, nid, ctr)) :
    findMatches (boardToGrid b) = [] :=
  findMatches_empty_of_boardOk b (initGame_ok rng b nid ctr h).2.2

/-- A concrete successful initialisation to instantiate `c1_init_no_matches`. -/
def c1Board : List (List Tile) × Nat × Nat :=
  (initGame cycleRng).getD ([], 1, 0)

theorem c1_witness : findMatches (boardToGrid c1Board.1) = [] :=
  c1_init_no_matches cycleRng c1Board.1 c1Board.2.1 c1Board.2.2 (by decide)
end Match3
